import Mathlib

/-!
Verification of the file-system models of the mu dual-pane browser
(src/mu/interface/models.py): the DeviceFileSystem list model over an
asynchronous device channel, and the SortedFileSystem ordering proxy.

The embedding is shallow.  Qt model indices are reduced to their row
number, Qt signals become an explicit list of emitted messages, and every
Python method of DeviceFileSystem becomes a pure function from the model
state (path, content) to a new state together with the messages it emits.
Python list indexing (which accepts negative positions and raises
IndexError when out of range) is modelled by an Option-valued lookup.
-/

namespace Mu

/-- One item of a directory listing: the (name, is_directory, size)
tuples that travel over the device channel. -/
structure Entry where
  name : String
  is_directory : Bool
  size : Nat
  deriving DecidableEq, Repr

/-- A Qt model index, reduced to its row number (an `Int`, since the
sentinel produced by `self.index(-1)` has row `-1`). -/
structure Index where
  row : Int
  deriving DecidableEq, Repr

/-- The Qt item roles that the code inspects. -/
inductive Role where
  | display
  | edit
  | decoration
  | other
  deriving DecidableEq, Repr

/-- Messages emitted by the model: the `list_files`, `delete` and
`rename` signals, and the `dataChanged` notification with the rows and
columns of the two `createIndex` arguments. -/
inductive Msg where
  | list_files (path : String)
  | delete (path : String)
  | rename (old_path new_path : String)
  | dataChanged (r1 c1 r2 c2 : Int)
  deriving DecidableEq, Repr

/-- `"/".join(path)` -/
def joinPath (p : List String) : String := String.intercalate "/" p

/-- Python list indexing on a list of length `n`: position `r` with
`0 ≤ r < n` is used as is, `-n ≤ r < 0` counts from the end, anything
else raises IndexError (here: `none`). -/
def pyIndex (n : Nat) (r : Int) : Option Nat :=
  if 0 ≤ r then
    if r < (n : Int) then some r.toNat else none
  else
    if -(n : Int) ≤ r then some ((n : Int) + r).toNat else none

/-- `content[r]` with Python semantics. -/
def pyGet (l : List Entry) (r : Int) : Option Entry :=
  (pyIndex l.length r).bind fun i => l.get? i

/-- The state owned by `DeviceFileSystem`: `self.path` (the current path
segments) and `self.content` (the last listing). -/
structure DeviceFileSystem where
  path : List String
  content : List Entry
  deriving DecidableEq, Repr

namespace DeviceFileSystem

/-- `invalidate`: emit a `list_files` request for the joined current path. -/
def invalidate (self : DeviceFileSystem) : DeviceFileSystem × List Msg :=
  (self, [Msg.list_files (joinPath self.path)])

/-- The synthetic parent entry `("..", True, 1)` appended by `on_ls`. -/
def parent_entry : Entry := { name := "..", is_directory := true, size := 1 }

/-- `on_ls`: store the received files, append `("..", True, 1)` when the
path is non-empty, and emit `dataChanged` over the full range. -/
def on_ls (self : DeviceFileSystem) (files : List Entry) :
    DeviceFileSystem × List Msg :=
  let content := if self.path.length > 0 then files ++ [parent_entry] else files
  ({ self with content := content },
   [Msg.dataChanged 0 0 0 (content.length : Int)])

/-- `on_ls_fail`: empty the listing and emit `dataChanged`. -/
def on_ls_fail (self : DeviceFileSystem) : DeviceFileSystem × List Msg :=
  ({ self with content := [] }, [Msg.dataChanged 0 0 0 0])

/-- `on_mv`: completion callback of a successful move, calls `invalidate`. -/
def on_mv (self : DeviceFileSystem) (_file _new_file : String) :
    DeviceFileSystem × List Msg :=
  self.invalidate

/-- `on_mv_fail`: completion callback of a failed move, calls `invalidate`. -/
def on_mv_fail (self : DeviceFileSystem) (_file _new_file : String) :
    DeviceFileSystem × List Msg :=
  self.invalidate

/-- `on_delete`: completion callback of a successful delete, calls `invalidate`. -/
def on_delete (self : DeviceFileSystem) (_file : String) :
    DeviceFileSystem × List Msg :=
  self.invalidate

/-- `on_delete_fail`: completion callback of a failed delete, calls `invalidate`. -/
def on_delete_fail (self : DeviceFileSystem) (_file : String) :
    DeviceFileSystem × List Msg :=
  self.invalidate

/-- `do_delete`: emit the `delete` signal for `"/".join(path) + "/" + file`. -/
def do_delete (self : DeviceFileSystem) (file : String) :
    DeviceFileSystem × List Msg :=
  (self, [Msg.delete (joinPath self.path ++ "/" ++ file)])

/-- `rowCount`. -/
def rowCount (self : DeviceFileSystem) : Nat := self.content.length

/-- `is_directory`: the `is_dir` component of `self.content[index.row()]`;
`none` models the IndexError raised by an out-of-range row. -/
def is_directory (self : DeviceFileSystem) (index : Index) : Option Bool :=
  (pyGet self.content index.row).map Entry.is_directory

/-- `get_root_index`: `self.index(-1)`, the sentinel with row `-1`. -/
def get_root_index (_self : DeviceFileSystem) : Index := { row := -1 }

/-- `enter_directory`: look up the entry at the row (IndexError → `none`),
pop the last path segment when it is named `".."` (`pop` on an empty path
raises → `none`), push the name when it is a directory, then emit one
`list_files` for the joined updated path and return `self.index(-1)`. -/
def enter_directory (self : DeviceFileSystem) (index : Index) :
    Option (DeviceFileSystem × List Msg × Index) :=
  (pyGet self.content index.row).bind fun e =>
    if e.name = ".." then
      match self.path with
      | [] => none
      | _ :: _ =>
        let p := self.path.dropLast
        some ({ self with path := p }, [Msg.list_files (joinPath p)],
              { row := -1 })
    else if e.is_directory then
      let p := self.path ++ [e.name]
      some ({ self with path := p }, [Msg.list_files (joinPath p)],
            { row := -1 })
    else
      some (self, [Msg.list_files (joinPath self.path)], { row := -1 })

/-- `flags`: whether `Qt.ItemIsEditable` is added to the default flags —
everything is editable except entries named `".."` or `"."`. -/
def flags (self : DeviceFileSystem) (index : Index) : Option Bool :=
  (pyGet self.content index.row).map fun e =>
    if e.name = ".." ∨ e.name = "." then false else true

/-- `setData`: on a display or edit role, emit `rename` from
`path + "/" + name` to `path + "/" + value`, call `invalidate`, and
return `True`; on any other role return `False`. -/
def setData (self : DeviceFileSystem) (index : Index) (value : String)
    (role : Role) : Option (DeviceFileSystem × List Msg × Bool) :=
  (pyGet self.content index.row).bind fun e =>
    if role = Role.display ∨ role = Role.edit then
      some (self,
        [Msg.rename (joinPath self.path ++ "/" ++ e.name)
                    (joinPath self.path ++ "/" ++ value),
         Msg.list_files (joinPath self.path)],
        true)
    else
      some (self, [], false)

end DeviceFileSystem

namespace SortedFileSystem

/-- Lexicographic comparison of character sequences, with a proper prefix
smaller than the longer sequence. -/
def ltCharList : List Char → List Char → Bool
  | [], [] => false
  | [], _ :: _ => true
  | _ :: _, [] => false
  | a :: as, b :: bs =>
    if a < b then true else if b < a then false else ltCharList as bs

/-- The case-folded key under which the base proxy model compares display
strings when its sort case sensitivity is `Qt.CaseInsensitive`. -/
def lowerKey (s : String) : List Char := s.data.map Char.toLower

/-- `SortedFileSystem.lessThan`, on the entries the indices denote: `".."`
first (left tested before right), then directories before files, then the
case-insensitive name comparison performed by the base proxy model under
`Qt.CaseInsensitive`. -/
def lessThan (left right : Entry) : Bool :=
  if left.name = ".." then true
  else if right.name = ".." then false
  else if left.is_directory = false ∧ right.is_directory = true then false
  else if left.is_directory = true ∧ right.is_directory = false then true
  else ltCharList (lowerKey left.name) (lowerKey right.name)

/-- A sequence of rows is sorted for the proxy when no later row strictly
precedes an earlier row under `lessThan`. -/
def SortedView (out : List Entry) : Prop :=
  ∀ i j : Fin out.length, (i : Nat) < (j : Nat) →
    lessThan (out.get j) (out.get i) = false

instance (out : List Entry) : Decidable (SortedView out) := by
  unfold SortedView; infer_instance

/-- `out` is an ordering the proxy may display for the listing `l`: a
permutation of `l` that is sorted under `lessThan`. -/
def IsOrderingOf (out l : List Entry) : Prop :=
  out.Perm l ∧ SortedView out

instance (out l : List Entry) : Decidable (IsOrderingOf out l) := by
  unfold IsOrderingOf; infer_instance

end SortedFileSystem

open DeviceFileSystem SortedFileSystem

/-- A sample model state used to instantiate theorems: path `["d"]`,
listing a directory `a` and a file `b.txt`. -/
def sampleFS : DeviceFileSystem :=
  { path := ["d"],
    content := [{ name := "a", is_directory := true, size := 0 },
                { name := "b.txt", is_directory := false, size := 120 }] }

/-- A sample model state whose listing holds the parent marker. -/
def cexFS : DeviceFileSystem :=
  { path := ["d"], content := [parent_entry] }

/-- A sample listing used to instantiate the ordering theorems. -/
def wSrc : List Entry :=
  [⟨"a.txt", false, 1⟩, ⟨"B.txt", false, 2⟩, ⟨"sub", true, 0⟩, parent_entry]

/-- A sorted ordering of `wSrc` under `lessThan`. -/
def wOut : List Entry :=
  [parent_entry, ⟨"sub", true, 0⟩, ⟨"a.txt", false, 1⟩, ⟨"B.txt", false, 2⟩]

/-- C2: on each completion callback of a move or delete (success or
failure) the model emits exactly one `list_files` request, for the joined
current path, and neither the callbacks nor `do_delete` nor `setData`
change the state (in particular the path). -/
theorem mutation_callback_single_refresh (s : DeviceFileSystem)
    (f nf v : String) (i : Index) (role : Role)
    (t : DeviceFileSystem × List Msg × Bool)
    (ht : s.setData i v role = some t) :
    s.on_mv f nf = (s, [Msg.list_files (joinPath s.path)]) ∧
    s.on_mv_fail f nf = (s, [Msg.list_files (joinPath s.path)]) ∧
    s.on_delete f = (s, [Msg.list_files (joinPath s.path)]) ∧
    s.on_delete_fail f = (s, [Msg.list_files (joinPath s.path)]) ∧
    (s.do_delete f).1 = s ∧ t.1 = s := by
  refine ⟨rfl, rfl, rfl, rfl, rfl, ?_⟩
  unfold DeviceFileSystem.setData at ht
  cases hg : pyGet s.content i.row with
  | none => rw [hg] at ht; simp at ht
  | some e =>
    rw [hg] at ht
    simp only [Option.some_bind] at ht
    split_ifs at ht
    · injection ht with h
      exact (congrArg Prod.fst h).symm
    · injection ht with h
      exact (congrArg Prod.fst h).symm

theorem mutation_callback_single_refresh_witness :
    sampleFS.on_mv "a" "b" = (sampleFS, [Msg.list_files (joinPath sampleFS.path)]) ∧
    sampleFS.on_mv_fail "a" "b" = (sampleFS, [Msg.list_files (joinPath sampleFS.path)]) ∧
    sampleFS.on_delete "a" = (sampleFS, [Msg.list_files (joinPath sampleFS.path)]) ∧
    sampleFS.on_delete_fail "a" = (sampleFS, [Msg.list_files (joinPath sampleFS.path)]) ∧
    (sampleFS.do_delete "a").1 = sampleFS ∧
    ((sampleFS, [Msg.rename "d/a" "d/x", Msg.list_files "d"], true) :
      DeviceFileSystem × List Msg × Bool).1 = sampleFS :=
  mutation_callback_single_refresh sampleFS "a" "b" "x" { row := 0 } Role.edit
    (sampleFS, [Msg.rename "d/a" "d/x", Msg.list_files "d"], true) (by decide)

/-- C6: after a successful list response the listing equals the received
files with the parent entry `("..", True, 1)` appended exactly when the
path is non-empty, and the path itself is unchanged. -/
theorem on_ls_parent_marker_append (s : DeviceFileSystem) (files : List Entry) :
    (s.on_ls files).1.content =
      (if s.path.isEmpty then files else files ++ [parent_entry]) ∧
    (s.on_ls files).1.path = s.path ∧
    parent_entry.name = ".." ∧ parent_entry.is_directory = true := by
  obtain ⟨p, c⟩ := s
  cases p <;> simp [DeviceFileSystem.on_ls, parent_entry]

/-- C9: `is_directory` on a row at or past the listing length is the
IndexError case (`none`); it never returns a default boolean. -/
theorem is_directory_out_of_range_fatal (s : DeviceFileSystem) (r : Int)
    (h : (s.rowCount : Int) ≤ r) : s.is_directory { row := r } = none := by
  unfold DeviceFileSystem.rowCount at h
  unfold DeviceFileSystem.is_directory pyGet pyIndex
  have h0 : (0 : Int) ≤ r := le_trans (Int.ofNat_nonneg _) h
  rw [if_pos h0, if_neg (not_lt.mpr h)]
  rfl

theorem is_directory_out_of_range_fatal_witness :
    ((sampleFS.rowCount : Int) ≤ 5) ∧ sampleFS.is_directory { row := 5 } = none :=
  ⟨by decide, is_directory_out_of_range_fatal sampleFS 5 (by decide)⟩

/-- C10: on a non-empty listing of length n, a negative row r with
-n ≤ r ≤ -1 does not fail: `is_directory` returns the flag of the entry
at position n + r (Python negative indexing); the sentinel root index has
row -1, so querying it returns the flag of the last entry. -/
theorem is_directory_negative_row (s : DeviceFileSystem) (r : Int)
    (hne : s.content ≠ []) (hlo : -(s.content.length : Int) ≤ r)
    (hhi : r ≤ -1) :
    (∃ e, s.content.get? ((s.content.length : Int) + r).toNat = some e ∧
        s.is_directory { row := r } = some e.is_directory) ∧
    s.get_root_index.row = -1 ∧
    (∃ e, s.content.getLast? = some e ∧
        s.is_directory s.get_root_index = some e.is_directory) := by
  have hn : 0 < s.content.length := List.length_pos.mpr hne
  have hr0 : ¬ (0 ≤ r) := by omega
  refine ⟨?_, rfl, ?_⟩
  · have hidx : ((s.content.length : Int) + r).toNat < s.content.length := by omega
    refine ⟨s.content.get ⟨_, hidx⟩, List.get?_eq_get hidx, ?_⟩
    unfold DeviceFileSystem.is_directory pyGet pyIndex
    rw [if_neg hr0, if_pos hlo]
    simp
    exact ⟨_, List.getElem?_eq_getElem hidx, rfl⟩
  · have hidx : ((s.content.length : Int) + (-1)).toNat < s.content.length := by
      omega
    refine ⟨s.content.get ⟨_, hidx⟩, ?_, ?_⟩
    · rw [List.getLast?_eq_getElem?]
      have hL : s.content.length - 1 = ((s.content.length : Int) + (-1)).toNat := by
        omega
      rw [hL]
      simp [List.get?_eq_get hidx]
    · unfold DeviceFileSystem.is_directory DeviceFileSystem.get_root_index
      unfold pyGet pyIndex
      have h1 : ¬ ((0 : Int) ≤ -1) := by decide
      have h2 : -(s.content.length : Int) ≤ -1 := by omega
      rw [if_neg h1, if_pos h2]
      simp
      exact ⟨_, List.getElem?_eq_getElem hidx, rfl⟩

theorem is_directory_negative_row_witness :
    (sampleFS.content ≠ [] ∧ -(sampleFS.content.length : Int) ≤ -2 ∧
      ((-2 : Int) ≤ -1)) ∧
    ((∃ e, sampleFS.content.get? ((sampleFS.content.length : Int) + -2).toNat =
        some e ∧ sampleFS.is_directory { row := -2 } = some e.is_directory) ∧
     sampleFS.get_root_index.row = -1 ∧
     (∃ e, sampleFS.content.getLast? = some e ∧
        sampleFS.is_directory sampleFS.get_root_index = some e.is_directory)) :=
  ⟨⟨by decide, by decide, by decide⟩,
   is_directory_negative_row sampleFS (-2) (by decide) (by decide) (by decide)⟩

/-- C1 counterexample: on a listing holding the parent marker, `setData`
with old name `".."` under the edit role is not rejected: it emits the
rename command and the refresh request and returns `True`. -/
theorem setData_parent_marker_cex :
    cexFS.setData { row := 0 } "x" Role.edit =
      some (cexFS, [Msg.rename "d/.." "d/x", Msg.list_files "d"], true) := by
  decide

/-- C1 amended: `setData` on an entry named `".."` with the edit role
emits the rename for the parent marker, emits the refresh request, leaves
the state unchanged and returns `True`; the parent marker is instead
excluded from renaming by `flags`, which reports it non-editable. -/
theorem setData_parent_marker_flow (s : DeviceFileSystem) (i : Index)
    (e : Entry) (v : String) (he : pyGet s.content i.row = some e)
    (hname : e.name = "..") :
    s.setData i v Role.edit =
      some (s, [Msg.rename (joinPath s.path ++ "/" ++ e.name)
                           (joinPath s.path ++ "/" ++ v),
                Msg.list_files (joinPath s.path)], true) ∧
    s.flags i = some false := by
  constructor
  · unfold DeviceFileSystem.setData
    rw [he]
    rfl
  · unfold DeviceFileSystem.flags
    rw [he]
    simp [hname]

/-- Helper: the list comparison never puts a sequence before itself. -/
theorem ltCharList_irrefl (l : List Char) : ltCharList l l = false := by
  induction l with
  | nil => rfl
  | cons a as ih => simp [ltCharList, lt_irrefl, ih]

/-- Helper: the list comparison is transitive. -/
theorem ltCharList_trans (a : List Char) : ∀ b c : List Char,
    ltCharList a b = true → ltCharList b c = true → ltCharList a c = true := by
  induction a with
  | nil =>
    intro b c hab hbc
    cases b with
    | nil => simp [ltCharList] at hab
    | cons y ys =>
      cases c with
      | nil => simp [ltCharList] at hbc
      | cons z zs => rfl
  | cons x xs ih =>
    intro b c hab hbc
    cases b with
    | nil => simp [ltCharList] at hab
    | cons y ys =>
      cases c with
      | nil => simp [ltCharList] at hbc
      | cons z zs =>
        by_cases h1 : x < y
        · by_cases h2 : y < z
          · simp [ltCharList, lt_trans h1 h2]
          · by_cases h3 : z < y
            · simp [ltCharList, h2, h3] at hbc
            · have hyz : y = z := le_antisymm (not_lt.mp h3) (not_lt.mp h2)
              subst hyz
              simp [ltCharList, h1]
        · by_cases h1b : y < x
          · simp [ltCharList, h1, h1b] at hab
          · have hxy : x = y := le_antisymm (not_lt.mp h1b) (not_lt.mp h1)
            subst hxy
            simp only [ltCharList, lt_irrefl, if_neg (lt_irrefl x)] at hab
            simp only [if_false] at hab
            by_cases h2 : x < z
            · simp [ltCharList, h2]
            · by_cases h3 : z < x
              · simp [ltCharList, h2, h3] at hbc
              · have hxz : x = z := le_antisymm (not_lt.mp h3) (not_lt.mp h2)
                subst hxz
                simp only [ltCharList, lt_irrefl, if_neg (lt_irrefl x)] at hbc ⊢
                simp only [if_false] at hbc ⊢
                exact ih ys zs hab hbc

/-- Helper: two sequences neither of which precedes the other are equal. -/
theorem ltCharList_eq_of_not (a : List Char) : ∀ b : List Char,
    ltCharList a b = false → ltCharList b a = false → a = b := by
  induction a with
  | nil =>
    intro b hab _
    cases b with
    | nil => rfl
    | cons y ys => simp [ltCharList] at hab
  | cons x xs ih =>
    intro b hab hba
    cases b with
    | nil => simp [ltCharList] at hba
    | cons y ys =>
      by_cases h1 : x < y
      · simp [ltCharList, h1] at hab
      · by_cases h2 : y < x
        · simp [ltCharList, h1, h2] at hba
        · have hxy : x = y := le_antisymm (not_lt.mp h2) (not_lt.mp h1)
          subst hxy
          simp only [ltCharList, if_neg (lt_irrefl x), if_false] at hab hba
          rw [ih ys hab hba]

/-- Helper: outside the parent-marker cases, `lessThan` holds exactly
when the left entry is a directory and the right is not, or both have the
same kind and the left name is smaller case-insensitively. -/
theorem lessThan_eq_true_iff (a b : Entry) (ha : a.name ≠ "..")
    (hb : b.name ≠ "..") :
    lessThan a b = true ↔
      (a.is_directory = true ∧ b.is_directory = false) ∨
      (a.is_directory = b.is_directory ∧
        ltCharList (lowerKey a.name) (lowerKey b.name) = true) := by
  unfold SortedFileSystem.lessThan
  rw [if_neg ha, if_neg hb]
  cases hA : a.is_directory <;> cases hB : b.is_directory <;> simp [hA, hB]

/-- C3: in every sorted ordering of a listing that holds an entry named
`".."`, the entry at row 0 is named `".."`. -/
theorem parent_marker_sorts_first (l out : List Entry)
    (hord : IsOrderingOf out l) (hmem : ∃ e ∈ l, e.name = "..") :
    ∃ e, out.head? = some e ∧ e.name = ".." := by
  obtain ⟨hperm, hsort⟩ := hord
  obtain ⟨e, hel, hname⟩ := hmem
  have hm : e ∈ out := hperm.mem_iff.mpr hel
  obtain ⟨j, hj⟩ := List.mem_iff_get.mp hm
  have hlen : 0 < out.length := j.pos
  refine ⟨out.get ⟨0, hlen⟩, ?_, ?_⟩
  · rw [List.head?_eq_getElem?]
    exact List.getElem?_eq_getElem hlen
  · by_contra h0
    have hj0 : 0 < (j : Nat) := by
      rcases Nat.eq_zero_or_pos (j : Nat) with hz | hp
      · exfalso
        apply h0
        have hje : j = ⟨0, hlen⟩ := Fin.ext hz
        rw [← hje, hj]
        exact hname
      · exact hp
    have hs := hsort ⟨0, hlen⟩ j hj0
    rw [hj] at hs
    have ht : lessThan e (out.get ⟨0, hlen⟩) = true := by
      simp [SortedFileSystem.lessThan, hname]
    rw [ht] at hs
    simp at hs

theorem parent_marker_sorts_first_witness :
    (IsOrderingOf wOut wSrc ∧ ∃ e ∈ wSrc, e.name = "..") ∧
    (∃ e, wOut.head? = some e ∧ e.name = "..") :=
  ⟨⟨by decide, by decide⟩,
   parent_marker_sorts_first wSrc wOut (by decide) (by decide)⟩

/-- C4: in any sorted ordering, among rows not named `".."`, a
non-directory never appears before a directory, and rows of the same kind
appear in case-insensitive lexicographic name order. -/
theorem directories_before_files_then_names (l out : List Entry)
    (hord : IsOrderingOf out l) (i j : Fin out.length)
    (hij : (i : Nat) < (j : Nat)) (hi : (out.get i).name ≠ "..")
    (hj : (out.get j).name ≠ "..") :
    ¬((out.get i).is_directory = false ∧ (out.get j).is_directory = true) ∧
    ((out.get i).is_directory = (out.get j).is_directory →
      ltCharList (lowerKey (out.get j).name)
        (lowerKey (out.get i).name) = false) := by
  obtain ⟨hperm, hsort⟩ := hord
  have hs := hsort i j hij
  have hiff := lessThan_eq_true_iff (out.get j) (out.get i) hj hi
  constructor
  · rintro ⟨hfi, hdj⟩
    have ht : lessThan (out.get j) (out.get i) = true :=
      hiff.mpr (Or.inl ⟨hdj, hfi⟩)
    rw [ht] at hs
    simp at hs
  · intro hsame
    cases hx : ltCharList (lowerKey (out.get j).name)
        (lowerKey (out.get i).name) with
    | false => rfl
    | true =>
      have ht : lessThan (out.get j) (out.get i) = true :=
        hiff.mpr (Or.inr ⟨hsame.symm, hx⟩)
      rw [ht] at hs
      simp at hs

theorem directories_before_files_then_names_witness :
    ¬((wOut.get ⟨1, by decide⟩).is_directory = false ∧
      (wOut.get ⟨2, by decide⟩).is_directory = true) ∧
    ((wOut.get ⟨1, by decide⟩).is_directory =
        (wOut.get ⟨2, by decide⟩).is_directory →
      ltCharList (lowerKey (wOut.get ⟨2, by decide⟩).name)
        (lowerKey (wOut.get ⟨1, by decide⟩).name) = false) :=
  directories_before_files_then_names wSrc wOut (by decide)
    ⟨1, by decide⟩ ⟨2, by decide⟩ (by decide) (by decide) (by decide)

/-- C5 counterexample: `lessThan` is not irreflexive, hence not a strict
weak ordering: the parent marker entry precedes itself, because the left
name is tested for `".."` before the right one. -/
theorem lessThan_parent_marker_self_cex :
    lessThan parent_entry parent_entry = true := rfl

/-- C5 amended: `lessThan` is irreflexive on every entry whose name is
not `".."`, it is transitive, and two entries neither of which precedes
the other have case-insensitively identical names and the same kind; but
irreflexivity fails on entries named `".."`. -/
theorem lessThan_ordering_properties :
    (∀ e : Entry, e.name ≠ ".." → lessThan e e = false) ∧
    (∀ a b c : Entry, lessThan a b = true → lessThan b c = true →
      lessThan a c = true) ∧
    (∀ a b : Entry, lessThan a b = false → lessThan b a = false →
      lowerKey a.name = lowerKey b.name ∧
      a.is_directory = b.is_directory) := by
  refine ⟨?_, ?_, ?_⟩
  · intro e he
    cases hd : e.is_directory <;>
      simp [SortedFileSystem.lessThan, he, hd, ltCharList_irrefl]
  · intro a b c hab hbc
    by_cases ha : a.name = ".."
    · simp [SortedFileSystem.lessThan, ha]
    · have hb : b.name ≠ ".." := by
        intro hbn
        unfold SortedFileSystem.lessThan at hab
        rw [if_neg ha, if_pos hbn] at hab
        simp at hab
      have hc : c.name ≠ ".." := by
        intro hcn
        unfold SortedFileSystem.lessThan at hbc
        rw [if_neg hb, if_pos hcn] at hbc
        simp at hbc
      rw [lessThan_eq_true_iff a b ha hb] at hab
      rw [lessThan_eq_true_iff b c hb hc] at hbc
      rw [lessThan_eq_true_iff a c ha hc]
      rcases hab with ⟨ha1, hb1⟩ | ⟨hk1, hn1⟩ <;>
        rcases hbc with ⟨hb2, hc2⟩ | ⟨hk2, hn2⟩
      · rw [hb1] at hb2
        simp at hb2
      · left
        exact ⟨ha1, by rw [← hk2]; exact hb1⟩
      · left
        exact ⟨by rw [hk1]; exact hb2, hc2⟩
      · right
        exact ⟨hk1.trans hk2, ltCharList_trans _ _ _ hn1 hn2⟩
  · intro a b hab hba
    by_cases ha : a.name = ".."
    · exfalso
      simp [SortedFileSystem.lessThan, ha] at hab
    · by_cases hb : b.name = ".."
      · exfalso
        simp [SortedFileSystem.lessThan, hb, ha] at hba
      · have h1 := lessThan_eq_true_iff a b ha hb
        have h2 := lessThan_eq_true_iff b a hb ha
        have hd : a.is_directory = b.is_directory := by
          cases hA : a.is_directory <;> cases hB : b.is_directory <;> try rfl
          · exact absurd (h2.mpr (Or.inl ⟨hB, hA⟩)) (by simp [hba])
          · exact absurd (h1.mpr (Or.inl ⟨hA, hB⟩)) (by simp [hab])
        refine ⟨?_, hd⟩
        have hn1 : ltCharList (lowerKey a.name) (lowerKey b.name) = false := by
          cases hx : ltCharList (lowerKey a.name) (lowerKey b.name) with
          | false => rfl
          | true => exact absurd (h1.mpr (Or.inr ⟨hd, hx⟩)) (by simp [hab])
        have hn2 : ltCharList (lowerKey b.name) (lowerKey a.name) = false := by
          cases hx : ltCharList (lowerKey b.name) (lowerKey a.name) with
          | false => rfl
          | true => exact absurd (h2.mpr (Or.inr ⟨hd.symm, hx⟩)) (by simp [hba])
        exact ltCharList_eq_of_not _ _ hn1 hn2

theorem lessThan_ordering_properties_witness :
    lessThan ⟨"a", true, 0⟩ ⟨"a", true, 0⟩ = false ∧
    lessThan ⟨"a", true, 0⟩ ⟨"c.txt", false, 7⟩ = true ∧
    (lowerKey (⟨"A", true, 0⟩ : Entry).name =
        lowerKey (⟨"a", true, 1⟩ : Entry).name ∧
      (⟨"A", true, 0⟩ : Entry).is_directory =
        (⟨"a", true, 1⟩ : Entry).is_directory) :=
  ⟨lessThan_ordering_properties.1 ⟨"a", true, 0⟩ (by decide),
   lessThan_ordering_properties.2.1 ⟨"a", true, 0⟩ ⟨"b", true, 3⟩
     ⟨"c.txt", false, 7⟩ (by decide) (by decide),
   lessThan_ordering_properties.2.2 ⟨"A", true, 0⟩ ⟨"a", true, 1⟩
     (by decide) (by decide)⟩

theorem setData_parent_marker_flow_witness :
    cexFS.setData { row := 0 } "y" Role.edit =
      some (cexFS, [Msg.rename (joinPath cexFS.path ++ "/" ++ parent_entry.name)
                               (joinPath cexFS.path ++ "/" ++ "y"),
                    Msg.list_files (joinPath cexFS.path)], true) ∧
    cexFS.flags { row := 0 } = some false :=
  setData_parent_marker_flow cexFS { row := 0 } parent_entry "y" (by decide) rfl

/-- C7: on an in-range index (one whose lookup yields an entry, with a
poppable path when the entry is the parent marker), `enter_directory`
pops the last path segment for `".."`, pushes the name for a directory,
leaves the path alone otherwise, emits exactly one `list_files` request
for the joined updated path, returns the sentinel root index, and leaves
the listing unchanged. -/
theorem enter_directory_spec (s : DeviceFileSystem) (i : Index) (e : Entry)
    (he : pyGet s.content i.row = some e)
    (hp : e.name = ".." → s.path ≠ []) :
    ∃ p : List String,
      p = (if e.name = ".." then s.path.dropLast
           else if e.is_directory = true then s.path ++ [e.name]
           else s.path) ∧
      s.enter_directory i =
        some ({ path := p, content := s.content },
              [Msg.list_files (joinPath p)], s.get_root_index) := by
  refine ⟨_, rfl, ?_⟩
  obtain ⟨sp, sc⟩ := s
  unfold DeviceFileSystem.enter_directory
  rw [he]
  simp only [Option.some_bind]
  by_cases hname : e.name = ".."
  · cases hpath : sp with
    | nil => exact absurd rfl (hpath ▸ hp hname)
    | cons a as =>
      subst hpath
      simp [hname, DeviceFileSystem.get_root_index]
  · cases hd : e.is_directory <;>
      simp [hname, hd, DeviceFileSystem.get_root_index]

theorem enter_directory_spec_witness :
    ∃ p : List String,
      p = (if (⟨"b.txt", false, 120⟩ : Entry).name = ".."
           then sampleFS.path.dropLast
           else if (⟨"b.txt", false, 120⟩ : Entry).is_directory = true
           then sampleFS.path ++ [(⟨"b.txt", false, 120⟩ : Entry).name]
           else sampleFS.path) ∧
      sampleFS.enter_directory { row := 1 } =
        some ({ path := p, content := sampleFS.content },
              [Msg.list_files (joinPath p)], sampleFS.get_root_index) :=
  enter_directory_spec sampleFS { row := 1 } ⟨"b.txt", false, 120⟩
    (by decide) (by decide)

/-- C8: entering a directory entry named `"foo"` and then, once the new
listing (with its appended parent marker) has arrived, entering that
parent-marker entry restores the path to its starting value. -/
theorem enter_directory_round_trip (s : DeviceFileSystem) (i : Index)
    (e : Entry) (files : List Entry) (he : pyGet s.content i.row = some e)
    (hname : e.name = "foo") (hdir : e.is_directory = true) :
    ∃ s1 m1 x1, s.enter_directory i = some (s1, m1, x1) ∧
    ∃ s3 m3 x3,
      ((s1.on_ls files).1).enter_directory { row := (files.length : Int) } =
        some (s3, m3, x3) ∧
      s3.path = s.path := by
  obtain ⟨sp, sc⟩ := s
  have hne : e.name ≠ ".." := by rw [hname]; decide
  refine ⟨⟨sp ++ [e.name], sc⟩, [Msg.list_files (joinPath (sp ++ [e.name]))],
          { row := -1 }, ?_, ?_⟩
  · unfold DeviceFileSystem.enter_directory
    rw [he]
    simp [hne, hdir]
  · have hlen : (sp ++ [e.name]).length > 0 := by simp
    have hcontent :
        ((DeviceFileSystem.mk (sp ++ [e.name]) sc).on_ls files).1 =
          DeviceFileSystem.mk (sp ++ [e.name]) (files ++ [parent_entry]) := by
      simp [DeviceFileSystem.on_ls, hlen]
    rw [hcontent]
    have hget : pyGet (files ++ [parent_entry]) (files.length : Int) =
        some parent_entry := by
      unfold pyGet pyIndex
      have h0 : (0 : Int) ≤ (files.length : Int) := Int.ofNat_nonneg _
      have h1 : (files.length : Int) <
          ((files ++ [parent_entry]).length : Int) := by
        simp
      rw [if_pos h0, if_pos h1]
      simp [List.getElem?_concat_length]
    have hmatch :
        (DeviceFileSystem.mk (sp ++ [e.name]) (files ++ [parent_entry])).enter_directory
            { row := (files.length : Int) } =
          some (⟨(sp ++ [e.name]).dropLast, files ++ [parent_entry]⟩,
                [Msg.list_files (joinPath ((sp ++ [e.name]).dropLast))],
                { row := -1 }) := by
      unfold DeviceFileSystem.enter_directory
      rw [hget]
      simp only [Option.some_bind]
      have hpn : parent_entry.name = ".." := rfl
      rw [if_pos hpn]
      cases hq : sp ++ [e.name] with
      | nil => exact absurd hq (by simp)
      | cons a as => rfl
    rw [List.dropLast_concat] at hmatch
    exact ⟨⟨sp, files ++ [parent_entry]⟩,
           [Msg.list_files (joinPath sp)], { row := -1 }, hmatch, rfl⟩

theorem enter_directory_round_trip_witness :
    ∃ s1 m1 x1,
      (DeviceFileSystem.mk ["d"] [⟨"foo", true, 0⟩]).enter_directory
          { row := 0 } = some (s1, m1, x1) ∧
      ∃ s3 m3 x3,
        ((s1.on_ls [⟨"x.txt", false, 5⟩]).1).enter_directory
            { row := (([⟨"x.txt", false, 5⟩] : List Entry).length : Int) } =
          some (s3, m3, x3) ∧
        s3.path = (DeviceFileSystem.mk ["d"] [⟨"foo", true, 0⟩]).path :=
  enter_directory_round_trip (DeviceFileSystem.mk ["d"] [⟨"foo", true, 0⟩])
    { row := 0 } ⟨"foo", true, 0⟩ [⟨"x.txt", false, 5⟩] (by decide) rfl rfl

end Mu
